import Mathlib

/-!
# sprigcli: the value-resolution pipeline of `cmd/sprig/sprig.go`

A shallow embedding of `mergeMaps`, `sprigCommand.vals`, `sprigCommand.run`
and the `RunE` argument check, and the properties of the context that the
command hands to the template engine.

A Go `map[string]interface{}` is embedded as an association list
(`Mapping`); the invariant of a Go map, that a key occurs once, is the
predicate `Mapping.wf`.  Values of type `interface{}` are embedded as
`Value`; the only distinction the program draws is whether a value is a
`map[string]interface{}` or not.
-/

namespace Sprig

/-! ## Data model -/

mutual
/-- An `interface{}` value as produced by the YAML decoder, the `--set`
parser or the environment loop. -/
inductive Value where
  | null : Value
  | bool (b : Bool) : Value
  | num (n : Int) : Value
  | str (s : String) : Value
  | seq (xs : List Value) : Value
  | map (m : Mapping) : Value
/-- A `map[string]interface{}`: its entries, in some order. -/
inductive Mapping where
  | nil : Mapping
  | cons (k : String) (v : Value) (rest : Mapping) : Mapping
end

/-- The type assertion `v.(map[string]interface{})`. -/
def Value.asMap : Value → Option Mapping
  | .map m => some m
  | _ => none

/-- The Go map read `v, ok := m[k]`. -/
def lookup (k : String) : Mapping → Option Value
  | .nil => none
  | .cons k1 v rest => if k1 = k then some v else lookup k rest

/-- The Go map write `m[k] = v`. -/
def assign (k : String) (v : Value) : Mapping → Mapping
  | .nil => .cons k v .nil
  | .cons k1 v1 rest => if k1 = k then .cons k v rest else .cons k1 v1 (assign k v rest)

/-- The keys of a mapping, in entry order. -/
def Mapping.keys : Mapping → List String
  | .nil => []
  | .cons k _ rest => k :: rest.keys

mutual
/-- A value is well formed when every mapping in it (outside sequences) is. -/
def Value.wf : Value → Bool
  | .map m => m.wf
  | _ => true
/-- The invariant of a Go map: no key occurs twice, at any nesting depth. -/
def Mapping.wf : Mapping → Bool
  | .nil => true
  | .cons k v rest => (lookup k rest).isNone && v.wf && rest.wf
end

/-- Following a key path through nested mappings. The empty path stays at the value. -/
def Value.getPath : Value → List String → Option Value
  | v, [] => some v
  | .map m, k :: p =>
      match lookup k m with
      | some w => w.getPath p
      | none => none
  | _, _ :: _ => none

/-! ## `mergeMaps` -/

/-- The function `mergeMaps(a, b)` (sprig.go 161-178). The first argument is the map
`out`, which the source initialises with a copy of `a`; the recursion runs over
the entries of `b` as the `for k, v := range b` loop does. -/
def mergeMaps (out : Mapping) : Mapping → Mapping
  | .nil => out
  | .cons k (.map v) rest =>
      match lookup k out with
      | some (.map bv) => mergeMaps (assign k (.map (mergeMaps bv v)) out) rest
      | _ => mergeMaps (assign k (.map v) out) rest
  | .cons k v rest => mergeMaps (assign k v out) rest
termination_by structural b => b

/-- The value the loop body of `mergeMaps` stores at key `k` for the entry `(k, v)` of
`b`, given what `out` holds at `k`. -/
def mergeValue (old : Option Value) (v : Value) : Value :=
  match v, old with
  | .map sm, some (.map dm) => .map (mergeMaps dm sm)
  | v, _ => v

/-! ## Effects: errors, the event log, the outside world -/

/-- How a call ends when it does not return a value: a Go `error` value, the
missing-key execution error of the template engine, or a run-time panic. -/
inductive Err where
  | error (msg : String) : Err
  | missingKey (key : String) : Err
  | panic (msg : String) : Err

/-- The interactions of the command with the outside world, in the order performed. -/
inductive Event where
  | readFile (path : String) : Event
  | parseInto (spec : String) : Event
  | environ : Event
  | stdinStat : Event
  | openFile (path : String) : Event
  | readAll : Event
  | println (line : String) : Event
  | write (text : String) : Event

/-- A computation of the command: the events it performed and how it ended. -/
structure Eff (α : Type) where
  trace : List Event
  result : Except Err α

/-- A computation that performs no event and returns `a`. -/
def Eff.ret {α : Type} (a : α) : Eff α := ⟨[], .ok a⟩

/-- A computation that performs no event and ends with `e`. -/
def Eff.fail {α : Type} (e : Err) : Eff α := ⟨[], .error e⟩

/-- A call to the outside world: the events `evs`, ending as `r` says. -/
def Eff.call {α : Type} (evs : List Event) (r : Except Err α) : Eff α := ⟨evs, r⟩

/-- Sequencing: `f` runs only when `x` returned a value; the events accumulate. -/
def Eff.andThen {α β : Type} (x : Eff α) (f : α → Eff β) : Eff β :=
  match x.result with
  | .ok a => ⟨x.trace ++ (f a).trace, (f a).result⟩
  | .error e => ⟨x.trace, .error e⟩

instance : Monad Eff where
  pure := Eff.ret
  bind := Eff.andThen

/-- A library call that returns `(value, error)`, with the error message as a string. -/
def orError {α : Type} (wrap : String → String) : Except String α → Except Err α
  | .ok a => .ok a
  | .error err => .error (.error (wrap err))

/-- Modelled from the spec: a node of a parsed template of the engine (`text/template`,
no source under `src/`), for the fragment needed here: literal text and `{{.key}}`
actions. -/
inductive Node where
  | text (s : String) : Node
  | field (key : String) : Node

/-- Modelled from the spec: the evaluation policy of the engine for absent keys, its
`missingkey` option; `error` is strict-key mode. -/
inductive MissingKey where
  | default : MissingKey
  | zero : MissingKey
  | error : MissingKey

/-- Modelled from the spec: a template program of the engine, its nodes and its
`missingkey` option. -/
structure Template where
  nodes : List Node
  missingKey : MissingKey

/-- Everything the command reads from outside: files, the YAML decoder, the `--set`
parser, the environment, standard input, the template parser and value formatter. -/
structure World where
  /-- The call `ioutil.ReadFile(path)`. -/
  readFile : String → Except String String
  /-- The call `yaml.Unmarshal(bytes, &currentMap)` on an empty `currentMap`. -/
  unmarshal : String → Except String Mapping
  /-- The call `strvals.ParseInto(value, base)`: the updated `base`, or an error. -/
  parseInto : String → Mapping → Except String Mapping
  /-- The call `os.Environ()`. -/
  environ : List String
  /-- The call `os.Stdin.Stat()`: whether the mode has `ModeCharDevice` clear. -/
  stdinStat : Except String Bool
  /-- What `ioutil.ReadAll(os.Stdin)` returns. -/
  stdinData : Except String String
  /-- The call `os.Open(path)`: on success, what `ioutil.ReadAll` of the file returns. -/
  openFile : String → Except String (Except String String)
  /-- The call `template.New("gotmpl").Funcs(sprig.TxtFuncMap()).Parse(text)`. -/
  parse : String → Except String (List Node)
  /-- How the template engine prints a value. -/
  format : Value → String

/-- The package variable `Version`. -/
def Version : String := "unknown"

/-- The struct `sprigCommand`. -/
structure sprigCommand where
  valueFiles : List String
  stdInTemplate : Bool
  envValues : Bool
  dryRun : Bool
  version : Bool
  values : List String
  target : String

/-! ## `strings.SplitN` -/

/-- The loop of `strings.SplitN` for a one-byte separator and a count `n ≥ 0`: at most
`n` pieces, the last one the unsplit remainder. -/
def splitChars (sep : Char) : Nat → List Char → List (List Char)
  | 0, _ => []
  | 1, s => [s]
  | n + 2, s =>
      if sep ∈ s then
        s.takeWhile (fun c => c != sep) ::
          splitChars sep (n + 1) ((s.dropWhile (fun c => c != sep)).drop 1)
      else [s]

/-- The call `strings.SplitN(s, sep, n)` of the Go standard library for a one-byte
separator `sep`. Strings are sequences of characters here; the byte `=` occurs in UTF-8
text only as the character `=`, so splitting at it is the same on bytes and characters. -/
def SplitN (s : String) (sep : Char) (n : Nat) : List String :=
  (splitChars sep n s.data).map String.mk

/-! ## `sprigCommand.vals` -/

/-- The loop over `i.valueFiles` (sprig.go 83-95). -/
def filesLoop (w : World) (base : Mapping) : List String → Eff Mapping
  | [] => pure base
  | filePath :: rest => do
      let bytes ← Eff.call [.readFile filePath] (orError id (w.readFile filePath))
      let currentMap ← Eff.call []
        (orError (fun err => "failed to parse " ++ filePath ++ ": " ++ err) (w.unmarshal bytes))
      filesLoop w (mergeMaps base currentMap) rest

/-- The loop over `i.values` (sprig.go 98-102). -/
def setLoop (w : World) (base : Mapping) : List String → Eff Mapping
  | [] => pure base
  | value :: rest => do
      let base ← Eff.call [.parseInto value]
        (orError (fun err => "failed parsing --set data: " ++ err) (w.parseInto value base))
      setLoop w base rest

/-- The loop over `envVars` (sprig.go 108-111). The slice `splitVar` is indexed at 0
and at 1 without a length check; an index out of range is a run-time panic. -/
def envLoop (envMap : Mapping) : List String → Except Err Mapping
  | [] => .ok envMap
  | envVar :: rest =>
      let splitVar := SplitN envVar '=' 2
      match splitVar[0]?, splitVar[1]? with
      | some name, some value => envLoop (assign name (.str value) envMap) rest
      | _, _ => .error (.panic "runtime error: index out of range [1] with length 1")

/-- The method `sprigCommand.vals` (sprig.go 79-116). -/
def vals (w : World) (i : sprigCommand) : Eff Mapping := do
  let base ← filesLoop w .nil i.valueFiles
  let base ← setLoop w base i.values
  if i.envValues then
    let envVars ← Eff.call [.environ] (.ok w.environ)
    let envMap ← Eff.call [] (envLoop .nil envVars)
    pure (mergeMaps base envMap)
  else
    pure base

/-! ## The template engine -/

/-- Modelled from the spec: the method `Template.Option` of the engine, which sets the
`missingkey` option of a template. -/
def Template.Option (t : Template) (o : MissingKey) : Template :=
  { t with missingKey := o }

/-- Modelled from the spec: what the template engine (`text/template`, a library with no
source under `src/`) does for a `{{.key}}` action whose key is absent from the context:
a hard failure in strict mode (`missingkey=error`), the placeholder `<no value>`
otherwise. -/
def absentKey (o : MissingKey) (key : String) : Eff Unit :=
  match o with
  | .error => Eff.fail (.missingKey key)
  | .default => Eff.call [.write "<no value>"] (.ok ())
  | .zero => Eff.call [.write "<no value>"] (.ok ())

/-- Modelled from the spec: execution by the template engine (`text/template`, a library
with no source under `src/`) walks the nodes and writes output as it is produced; a
`{{.key}}` action writes the value the context holds at `key`; for an absent key see
`absentKey`. -/
def walk (format : Value → String) (o : MissingKey) (data : Mapping) : List Node → Eff Unit
  | [] => pure ()
  | .text s :: rest => do
      Eff.call [.write s] (.ok ())
      walk format o data rest
  | .field key :: rest =>
      match lookup key data with
      | some v => do
          Eff.call [.write (format v)] (.ok ())
          walk format o data rest
      | none => do
          absentKey o key
          walk format o data rest

/-- Modelled from the spec: the call `tmpl.Execute(os.Stdout, data)` of the template
engine, which is not under `src/`; see `walk`. -/
def Template.Execute (format : Value → String) (t : Template) (data : Mapping) : Eff Unit :=
  walk format t.missingKey data t.nodes

/-! ## `sprigCommand.run` and the command -/

/-- The function `shouldReadStdin` (sprig.go 181-187). -/
def shouldReadStdin (w : World) : Eff Bool :=
  match w.stdinStat with
  | .ok piped => Eff.call [.stdinStat] (.ok piped)
  | .error err => Eff.call [.stdinStat] (.error (.panic err))

/-- The method `sprigCommand.run` (sprig.go 118-158). -/
def run (w : World) (i : sprigCommand) : Eff Unit :=
  if i.version then
    Eff.call [.println ("sprig: " ++ Version)] (.ok ())
  else do
    let vals ← vals w i
    let r ←
      if i.stdInTemplate then do
        let piped ← shouldReadStdin w
        if piped then pure w.stdinData
        else Eff.fail (.error "stdinTemplate option is enabled, but pipe is not open")
      else if i.target = "" then
        Eff.fail (.error "must provide a file to template")
      else
        Eff.call [.openFile i.target] (orError id (w.openFile i.target))
    let templateData ← Eff.call [.readAll]
      (orError (fun err => "could not read input: " ++ err) r)
    let nodes ← Eff.call []
      (orError (fun err => "could not parse template: " ++ err) (w.parse templateData))
    let tmpl : Template := ⟨nodes, .default⟩
    let tmpl := tmpl.Option .error
    tmpl.Execute w.format vals

/-- The `RunE` closure of `NewSprigCmd` (sprig.go 36-51), with the method it ends in,
`sprigCmd.run`, as the parameter `run`. -/
def RunE (run : sprigCommand → Eff Unit) (sprigCmd : sprigCommand) (args : List String) :
    Eff Unit :=
  if sprigCmd.stdInTemplate then
    if args.length > 0 then
      Eff.fail (.error "you must provide template from stdin when using stdin mode")
    else run sprigCmd
  else
    if args.length > 1 then
      Eff.fail (.error "too many parameters, you must provide only one template file")
    else if h : args.length = 0 then
      Eff.fail (.error "there are no parameters, you must provide one template file")
    else run { sprigCmd with target := args[0] }

/-- The command built by `NewSprigCmd`, run on parsed flags and positional arguments. -/
def NewSprigCmd (w : World) (flags : sprigCommand) (args : List String) : Eff Unit :=
  RunE (run w) flags args

/-! ## The environment as the specification describes it -/

/-- The text of an environment entry before its first `=`. -/
def envName (e : String) : String :=
  String.mk (e.data.takeWhile (fun c => c != '='))

/-- The text of an environment entry after its first `=`. -/
def envValue (e : String) : String :=
  String.mk ((e.data.dropWhile (fun c => c != '=')).drop 1)

/-- The environment mapping: every entry `NAME=VALUE` of the snapshot, in order, sets
`NAME` to the string `VALUE`. -/
def environMap (env : List String) : Mapping :=
  env.foldl (fun m e => assign (envName e) (.str (envValue e)) m) .nil

/-- The chunks of text that a run wrote to standard output. -/
def written : List Event → List String
  | [] => []
  | .println line :: rest => (line ++ "\n") :: written rest
  | .write text :: rest => text :: written rest
  | _ :: rest => written rest

/-! ## A sample world, to instantiate the theorems -/

/-- The decoded content of the sample file `a.yaml`: `{NAME: fileval, a: {x: 1}}`. -/
def sampleA : Mapping :=
  .cons "NAME" (.str "fileval") (.cons "a" (.map (.cons "x" (.num 1) .nil)) .nil)

/-- The decoded content of the sample file `b.yaml`: `{a: {y: 2}, missing: here}`. -/
def sampleB : Mapping :=
  .cons "a" (.map (.cons "y" (.num 2) .nil)) (.cons "missing" (.str "here") .nil)

/-- A world with two values files, a `--set` parser that knows the spec `k=v`, an
environment of two entries, and the template `{{.missing}}` both on standard input and
in the file `t.tmpl`. -/
def sampleWorld : World where
  readFile := fun path =>
    if path = "a.yaml" then .ok "A" else if path = "b.yaml" then .ok "B"
    else .error "no such file"
  unmarshal := fun bytes =>
    if bytes = "A" then .ok sampleA else if bytes = "B" then .ok sampleB
    else .error "yaml: invalid"
  parseInto := fun spec base =>
    if spec = "k=v" then .ok (assign "k" (.str "v") base) else .error "key has no value"
  environ := ["NAME=envval", "X=a=b"]
  stdinStat := .ok true
  stdinData := .ok "\x7b\x7b.missing\x7d\x7d"
  openFile := fun path =>
    if path = "t.tmpl" then .ok (.ok "\x7b\x7b.missing\x7d\x7d") else .error "no such file"
  parse := fun text =>
    if text = "\x7b\x7b.missing\x7d\x7d" then .ok [.field "missing"] else .error "bad template"
  format := fun v =>
    match v with
    | .str s => s
    | _ => "?"

/-- The sample world with the environment replaced. -/
def sampleWorldWithEnv (env : List String) : World :=
  { sampleWorld with environ := env }

/-- The flags `-f a.yaml,b.yaml --set k=v --env`, with the template in `t.tmpl`. -/
def sampleCommand : sprigCommand :=
  ⟨["a.yaml", "b.yaml"], false, true, false, false, ["k=v"], "t.tmpl"⟩

/-- The flags `--env` alone: no values file, no override. -/
def envOnlyCommand : sprigCommand :=
  ⟨[], false, true, false, false, [], "t.tmpl"⟩

/-- The flags `--version` alone. -/
def versionOnlyCommand : sprigCommand :=
  ⟨[], false, false, false, true, [], ""⟩

/-- The events by which `run` obtains the template text, in either input mode. -/
def templateEvents (i : sprigCommand) : List Event :=
  if i.stdInTemplate then [.stdinStat, .readAll] else [.openFile i.target, .readAll]

/-! ## Basic facts about map reads and writes -/

theorem lookup_assign_self (k : String) (v : Value) :
    ∀ m : Mapping, lookup k (assign k v m) = some v
  | .nil => by simp [assign, lookup]
  | .cons k1 v1 rest => by
      by_cases h : k1 = k
      · simp [assign, lookup, h]
      · simp [assign, lookup, h, lookup_assign_self k v rest]

theorem lookup_assign_ne (k j : String) (v : Value) (h : k ≠ j) :
    ∀ m : Mapping, lookup j (assign k v m) = lookup j m
  | .nil => by simp [assign, lookup, h]
  | .cons k1 v1 rest => by
      by_cases h1 : k1 = k
      · subst h1
        simp [assign, lookup, h]
      · simp [assign, lookup, h1, lookup_assign_ne k j v h rest]

theorem mem_keys_iff (k : String) :
    ∀ m : Mapping, k ∈ m.keys ↔ (lookup k m).isSome = true
  | .nil => by simp [Mapping.keys, lookup]
  | .cons k1 v1 rest => by
      by_cases h : k1 = k
      · simp [Mapping.keys, lookup, h]
      · have ih := mem_keys_iff k rest
        have h2 : ¬ k = k1 := fun e => h e.symm
        simp [Mapping.keys, lookup, h, h2, ih]

theorem not_mem_keys_iff (k : String) (m : Mapping) :
    k ∉ m.keys ↔ lookup k m = none := by
  rw [mem_keys_iff]
  cases lookup k m <;> simp

theorem wf_cons (k : String) (v : Value) (rest : Mapping)
    (h : (Mapping.cons k v rest).wf = true) :
    lookup k rest = none ∧ v.wf = true ∧ rest.wf = true := by
  simp only [Mapping.wf, Bool.and_eq_true, Option.isNone_iff_eq_none] at h
  exact ⟨h.1.1, h.1.2, h.2⟩

theorem wf_lookup (k : String) (v : Value) :
    ∀ m : Mapping, m.wf = true → lookup k m = some v → v.wf = true
  | .nil, _, h => by simp [lookup] at h
  | .cons k1 v1 rest, hw, h => by
      obtain ⟨_, hv, hr⟩ := wf_cons k1 v1 rest hw
      by_cases hk : k1 = k
      · simp [lookup, hk] at h
        subst h
        exact hv
      · simp [lookup, hk] at h
        exact wf_lookup k v rest hr h

theorem wf_keys_nodup : ∀ m : Mapping, m.wf = true → m.keys.Nodup
  | .nil, _ => by simp [Mapping.keys]
  | .cons k v rest, hw => by
      obtain ⟨hk, _, hr⟩ := wf_cons k v rest hw
      simp only [Mapping.keys, List.nodup_cons]
      exact ⟨(not_mem_keys_iff k rest).2 hk, wf_keys_nodup rest hr⟩

/-! ## The per-key rule of `mergeMaps` -/

theorem mergeMaps_cons (out : Mapping) (k : String) (v : Value) (rest : Mapping) :
    mergeMaps out (.cons k v rest) =
      mergeMaps (assign k (mergeValue (lookup k out) v) out) rest := by
  cases v with
  | map sm =>
      rw [mergeMaps]
      cases h : lookup k out with
      | none => simp [mergeValue]
      | some d => cases d <;> simp [mergeValue]
  | null => simp [mergeMaps, mergeValue]
  | bool b => simp [mergeMaps, mergeValue]
  | num n => simp [mergeMaps, mergeValue]
  | str s => simp [mergeMaps, mergeValue]
  | seq xs => simp [mergeMaps, mergeValue]

theorem mergeMaps_lookup_absent (k : String) :
    ∀ (src dst : Mapping), lookup k src = none →
      lookup k (mergeMaps dst src) = lookup k dst
  | .nil, dst, _ => by simp [mergeMaps]
  | .cons k1 v rest, dst, h => by
      by_cases hk : k1 = k
      · simp [lookup, hk] at h
      · simp only [lookup, hk, if_false] at h
        rw [mergeMaps_cons, mergeMaps_lookup_absent k rest _ h, lookup_assign_ne k1 k _ hk]

theorem mergeMaps_lookup_present (k : String) (v : Value) :
    ∀ (src dst : Mapping), src.keys.Nodup → lookup k src = some v →
      lookup k (mergeMaps dst src) = some (mergeValue (lookup k dst) v)
  | .nil, _, _, h => by simp [lookup] at h
  | .cons k1 v1 rest, dst, hnd, h => by
      simp only [Mapping.keys, List.nodup_cons] at hnd
      by_cases hk : k1 = k
      · subst hk
        simp only [lookup, if_true, Option.some.injEq] at h
        subst h
        have hrest : lookup k1 rest = none := (not_mem_keys_iff k1 rest).1 hnd.1
        rw [mergeMaps_cons, mergeMaps_lookup_absent k1 rest _ hrest, lookup_assign_self]
      · simp only [lookup, hk, if_false] at h
        rw [mergeMaps_cons, mergeMaps_lookup_present k v rest _ hnd.2 h,
          lookup_assign_ne k1 k _ hk]

theorem mem_keys_assign (j k : String) (v : Value) (m : Mapping) :
    j ∈ (assign k v m).keys ↔ j = k ∨ j ∈ m.keys := by
  by_cases h : k = j
  · subst h
    simp [mem_keys_iff, lookup_assign_self]
  · have h2 : ¬ j = k := fun e => h e.symm
    simp [mem_keys_iff, lookup_assign_ne k j v h, h2]

theorem mem_keys_mergeMaps (j : String) :
    ∀ (src dst : Mapping), j ∈ (mergeMaps dst src).keys ↔ j ∈ dst.keys ∨ j ∈ src.keys
  | .nil, dst => by simp [mergeMaps, Mapping.keys]
  | .cons k v rest, dst => by
      rw [mergeMaps_cons, mem_keys_mergeMaps j rest, mem_keys_assign]
      simp only [Mapping.keys, List.mem_cons]
      tauto

theorem mergeValue_not_map (old : Option Value) (v : Value) (h : v.asMap = none) :
    mergeValue old v = v := by
  cases v <;> first | rfl | simp [Value.asMap] at h

theorem mergeValue_dst_not_map (old : Option Value) (v : Value)
    (h : old.bind Value.asMap = none) : mergeValue old v = v := by
  cases v with
  | map sm =>
      cases old with
      | none => rfl
      | some d => cases d <;> first | rfl | simp [Value.asMap] at h
  | null => rfl
  | bool b => rfl
  | num n => rfl
  | str s => rfl
  | seq xs => rfl

theorem getPath_mergeMaps (v : Value) (hv : v.asMap = none) :
    ∀ (p : List String) (dst src : Mapping), p ≠ [] → src.wf = true →
      (Value.map src).getPath p = some v →
      (Value.map (mergeMaps dst src)).getPath p = some v
  | [], _, _, hp, _, _ => absurd rfl hp
  | k :: rest, dst, src, _, hw, h => by
      simp only [Value.getPath] at h ⊢
      cases hs : lookup k src with
      | none => simp [hs] at h
      | some w =>
          simp only [hs] at h
          rw [mergeMaps_lookup_present k w src dst (wf_keys_nodup src hw) hs]
          cases rest with
          | nil =>
              simp only [Value.getPath, Option.some.injEq] at h
              subst h
              simp [mergeValue_not_map _ _ hv, Value.getPath]
          | cons k2 r2 =>
              cases w with
              | map sm =>
                  have hsm : sm.wf = true := by
                    have := wf_lookup k (.map sm) src hw hs
                    simpa [Value.wf] using this
                  cases hd : lookup k dst with
                  | none => simpa [mergeValue] using h
                  | some d =>
                      cases d with
                      | map dm =>
                          simp only [mergeValue]
                          exact getPath_mergeMaps v hv (k2 :: r2) dm sm (by simp) hsm h
                      | null => simpa [mergeValue] using h
                      | bool b => simpa [mergeValue] using h
                      | num n => simpa [mergeValue] using h
                      | str s => simpa [mergeValue] using h
                      | seq xs => simpa [mergeValue] using h
              | null => simp [Value.getPath] at h
              | bool b => simp [Value.getPath] at h
              | num n => simp [Value.getPath] at h
              | str s => simp [Value.getPath] at h
              | seq xs => simp [Value.getPath] at h

theorem foldl_mergeMaps_absent (k : String) :
    ∀ (srcs : List Mapping) (base : Mapping), (∀ m ∈ srcs, lookup k m = none) →
      lookup k (srcs.foldl mergeMaps base) = lookup k base
  | [], _, _ => rfl
  | s :: rest, base, h => by
      rw [List.foldl_cons, foldl_mergeMaps_absent k rest _ (fun m hm => h m (by simp [hm])),
        mergeMaps_lookup_absent k s base (h s (by simp))]

/-! ## Sequencing of effects -/

theorem bind_eq_andThen {α β : Type} (x : Eff α) (f : α → Eff β) :
    (x >>= f) = x.andThen f := rfl

theorem pure_eq_ret {α : Type} (a : α) : (pure a : Eff α) = Eff.ret a := rfl

theorem andThen_ok {α β : Type} (x : Eff α) (f : α → Eff β) (a : α)
    (h : x.result = .ok a) :
    x.andThen f = ⟨x.trace ++ (f a).trace, (f a).result⟩ := by
  simp [Eff.andThen, h]

theorem andThen_error {α β : Type} (x : Eff α) (f : α → Eff β) (e : Err)
    (h : x.result = .error e) :
    x.andThen f = ⟨x.trace, .error e⟩ := by
  simp [Eff.andThen, h]

theorem andThen_result_ok {α β : Type} (x : Eff α) (f : α → Eff β) (a : α)
    (h : x.result = .ok a) : (x.andThen f).result = (f a).result := by
  rw [andThen_ok x f a h]

theorem andThen_result_error {α β : Type} (x : Eff α) (f : α → Eff β) (e : Err)
    (h : x.result = .error e) : (x.andThen f).result = .error e := by
  rw [andThen_error x f e h]

/-! ## The loops of `vals` -/

theorem filesLoop_result (w : World) :
    ∀ (files : List String) (ms : List Mapping) (base : Mapping),
      List.Forall₂ (fun path m => ∃ bytes, w.readFile path = .ok bytes ∧
        w.unmarshal bytes = .ok m) files ms →
      (filesLoop w base files).result = .ok (ms.foldl mergeMaps base)
  | [], ms, base, h => by
      cases h
      rfl
  | path :: rest, [], base, h => by cases h
  | path :: rest, m :: ms, base, h => by
      obtain ⟨⟨bytes, hr, hu⟩, htail⟩ := List.forall₂_cons.1 h
      simp only [filesLoop, bind_eq_andThen, List.foldl_cons]
      rw [andThen_result_ok _ _ bytes (by simp [Eff.call, orError, hr]),
        andThen_result_ok _ _ m (by simp [Eff.call, orError, hu])]
      exact filesLoop_result w rest ms _ htail

theorem setLoop_result (w : World) (ov : Mapping → String → Mapping) :
    ∀ (values : List String) (base : Mapping),
      (∀ pre s post, values = pre ++ s :: post →
        w.parseInto s (pre.foldl ov base) = .ok (ov (pre.foldl ov base) s)) →
      (setLoop w base values).result = .ok (values.foldl ov base)
  | [], base, _ => rfl
  | s :: rest, base, h => by
      have h0 : w.parseInto s base = .ok (ov base s) := h [] s rest rfl
      simp only [setLoop, bind_eq_andThen, List.foldl_cons]
      rw [andThen_result_ok _ _ (ov base s) (by simp [Eff.call, orError, h0])]
      exact setLoop_result w ov rest (ov base s)
        (fun pre t post hsplit => h (s :: pre) t post (by simp [hsplit]))

theorem filesLoop_environ (w : World) (env : List String) :
    ∀ (files : List String) (base : Mapping),
      filesLoop { w with environ := env } base files = filesLoop w base files
  | [], _ => rfl
  | path :: rest, base => by
      simp only [filesLoop]
      congr 1
      funext bytes
      congr 1
      funext currentMap
      exact filesLoop_environ w env rest _

theorem setLoop_environ (w : World) (env : List String) :
    ∀ (values : List String) (base : Mapping),
      setLoop { w with environ := env } base values = setLoop w base values
  | [], _ => rfl
  | s :: rest, base => by
      simp only [setLoop]
      congr 1
      funext b
      exact setLoop_environ w env rest b

/-! ## Splitting an environment entry -/

theorem chars_split_at_first (sep : Char) :
    ∀ l : List Char, sep ∈ l →
      l = l.takeWhile (fun c => c != sep) ++ sep :: (l.dropWhile (fun c => c != sep)).drop 1
  | [], h => by simp at h
  | c :: l, h => by
      by_cases hc : c = sep
      · subst hc
        simp [List.takeWhile, List.dropWhile]
      · have hl : sep ∈ l := by
          rcases List.mem_cons.1 h with h1 | h1
          · exact absurd h1.symm hc
          · exact h1
        have ih := chars_split_at_first sep l hl
        have hp : (c != sep) = true := by simpa using hc
        rw [List.takeWhile_cons, List.dropWhile_cons]
        simp only [hp, if_true, List.cons_append]
        rw [← ih]

theorem sep_not_mem_takeWhile (sep : Char) (l : List Char) :
    sep ∉ l.takeWhile (fun c => c != sep) := by
  intro h
  have := List.mem_takeWhile_imp h
  simp at this

theorem takeWhile_before_sep (sep : Char) (a b : List Char) (ha : sep ∉ a) :
    (a ++ sep :: b).takeWhile (fun c => c != sep) = a := by
  rw [List.takeWhile_append_of_pos]
  · simp [List.takeWhile]
  · intro c hc
    simp only [bne_iff_ne, ne_eq]
    intro e
    exact ha (e ▸ hc)

theorem dropWhile_before_sep (sep : Char) (a b : List Char) (ha : sep ∉ a) :
    (a ++ sep :: b).dropWhile (fun c => c != sep) = sep :: b := by
  rw [List.dropWhile_append_of_pos]
  · simp [List.dropWhile]
  · intro c hc
    simp only [bne_iff_ne, ne_eq]
    intro e
    exact ha (e ▸ hc)

theorem entry_data (n v : String) : (n ++ "=" ++ v).data = n.data ++ '=' :: v.data := by
  simp [String.data_append]

theorem entry_has_sep (n v : String) : '=' ∈ (n ++ "=" ++ v).data := by
  simp [entry_data]

theorem envName_entry (n v : String) (hn : '=' ∉ n.data) : envName (n ++ "=" ++ v) = n := by
  simp [envName, entry_data, takeWhile_before_sep '=' n.data v.data hn]

theorem envValue_entry (n v : String) (hn : '=' ∉ n.data) : envValue (n ++ "=" ++ v) = v := by
  simp [envValue, entry_data, dropWhile_before_sep '=' n.data v.data hn]

theorem entry_of_has_sep (e : String) (h : '=' ∈ e.data) :
    e = envName e ++ "=" ++ envValue e ∧ '=' ∉ (envName e).data := by
  refine ⟨?_, sep_not_mem_takeWhile '=' e.data⟩
  apply String.ext
  rw [entry_data]
  exact chars_split_at_first '=' e.data h

theorem SplitN_has_sep (e : String) (h : '=' ∈ e.data) :
    SplitN e '=' 2 = [envName e, envValue e] := by
  simp [SplitN, splitChars, h, envName, envValue]

theorem SplitN_no_sep (e : String) (h : '=' ∉ e.data) : SplitN e '=' 2 = [e] := by
  simp [SplitN, splitChars, h]

theorem envLoop_cons_has_sep (envMap : Mapping) (e : String) (rest : List String)
    (h : '=' ∈ e.data) :
    envLoop envMap (e :: rest) = envLoop (assign (envName e) (.str (envValue e)) envMap) rest := by
  simp [envLoop, SplitN_has_sep e h]

theorem envLoop_cons_no_sep (envMap : Mapping) (e : String) (rest : List String)
    (h : '=' ∉ e.data) :
    envLoop envMap (e :: rest) =
      .error (.panic "runtime error: index out of range [1] with length 1") := by
  simp [envLoop, SplitN_no_sep e h]

theorem envLoop_all_have_sep :
    ∀ (env : List String) (envMap : Mapping), (∀ e ∈ env, '=' ∈ e.data) →
      envLoop envMap env =
        .ok (env.foldl (fun m e => assign (envName e) (.str (envValue e)) m) envMap)
  | [], _, _ => rfl
  | e :: rest, envMap, h => by
      rw [envLoop_cons_has_sep envMap e rest (h e (by simp)), List.foldl_cons]
      exact envLoop_all_have_sep rest _ (fun e1 h1 => h e1 (by simp [h1]))

theorem envLoop_some_no_sep :
    ∀ (env : List String) (envMap : Mapping), (∃ e ∈ env, '=' ∉ e.data) →
      envLoop envMap env =
        .error (.panic "runtime error: index out of range [1] with length 1")
  | [], _, h => by simp at h
  | e :: rest, envMap, h => by
      by_cases he : '=' ∈ e.data
      · rw [envLoop_cons_has_sep envMap e rest he]
        apply envLoop_some_no_sep rest
        obtain ⟨e1, hmem, hno⟩ := h
        rcases List.mem_cons.1 hmem with h1 | h1
        · exact absurd (h1 ▸ he) hno
        · exact ⟨e1, h1, hno⟩
      · exact envLoop_cons_no_sep envMap e rest he

/-! ## The environment mapping -/

theorem keys_assign_nodup (k : String) (v : Value) :
    ∀ m : Mapping, m.keys.Nodup → (assign k v m).keys.Nodup
  | .nil, _ => by simp [assign, Mapping.keys]
  | .cons k1 v1 rest, h => by
      simp only [Mapping.keys, List.nodup_cons] at h
      by_cases hk : k1 = k
      · subst hk
        simpa [assign, Mapping.keys] using h
      · simp only [assign, hk, if_false, Mapping.keys, List.nodup_cons, mem_keys_assign]
        refine ⟨?_, keys_assign_nodup k v rest h.2⟩
        simpa [hk] using h.1

theorem foldl_env_nodup :
    ∀ (env : List String) (m : Mapping), m.keys.Nodup →
      (env.foldl (fun m e => assign (envName e) (.str (envValue e)) m) m).keys.Nodup
  | [], _, h => h
  | e :: rest, m, h => by
      rw [List.foldl_cons]
      exact foldl_env_nodup rest _ (keys_assign_nodup _ _ m h)

theorem environMap_nodup (env : List String) : (environMap env).keys.Nodup :=
  foldl_env_nodup env .nil (by simp [Mapping.keys])

theorem foldl_env_lookup_other (n : String) :
    ∀ (env : List String) (m : Mapping), (∀ e ∈ env, envName e ≠ n) →
      lookup n (env.foldl (fun m e => assign (envName e) (.str (envValue e)) m) m) = lookup n m
  | [], _, _ => rfl
  | e :: rest, m, h => by
      rw [List.foldl_cons, foldl_env_lookup_other n rest _ (fun e1 h1 => h e1 (by simp [h1])),
        lookup_assign_ne _ _ _ (h e (by simp))]

theorem environMap_lookup_last (pre post : List String) (e : String)
    (hpost : ∀ e1 ∈ post, envName e1 ≠ envName e) :
    lookup (envName e) (environMap (pre ++ e :: post)) = some (.str (envValue e)) := by
  rw [environMap, List.foldl_append, List.foldl_cons,
    foldl_env_lookup_other (envName e) post _ hpost, lookup_assign_self]

/-! ## The stages of `vals` -/

theorem vals_result (w : World) (i : sprigCommand) (b1 b2 : Mapping)
    (h1 : (filesLoop w .nil i.valueFiles).result = .ok b1)
    (h2 : (setLoop w b1 i.values).result = .ok b2) :
    (vals w i).result =
      if i.envValues then
        match envLoop .nil w.environ with
        | .ok envMap => .ok (mergeMaps b2 envMap)
        | .error e => .error e
      else .ok b2 := by
  simp only [vals, bind_eq_andThen]
  rw [andThen_result_ok _ _ b1 h1, andThen_result_ok _ _ b2 h2]
  cases henv : i.envValues with
  | false => simp [pure_eq_ret, Eff.ret]
  | true =>
      simp only [if_true]
      rw [andThen_result_ok _ _ w.environ rfl]
      cases hl : envLoop .nil w.environ with
      | ok envMap =>
          rw [andThen_result_ok _ _ envMap (by simp [Eff.call, hl])]
          rfl
      | error e =>
          rw [andThen_result_error _ _ e (by simp [Eff.call, hl])]

theorem vals_environ_irrelevant (w : World) (i : sprigCommand) (env : List String)
    (h : i.envValues = false) : vals { w with environ := env } i = vals w i := by
  simp only [vals, h, filesLoop_environ, setLoop_environ, Bool.false_eq_true, if_false]

/-! ## `run` and the argument check -/

theorem written_append : ∀ a b : List Event, written (a ++ b) = written a ++ written b
  | [], _ => rfl
  | ev :: a, b => by
      cases ev <;> simp [written, written_append a b]

theorem written_andThen {α β : Type} (x : Eff α) (f : α → Eff β) :
    written (x.andThen f).trace =
      written x.trace ++
        (match x.result with
          | .ok a => written (f a).trace
          | .error _ => []) := by
  cases h : x.result with
  | ok a => rw [andThen_ok x f a h, written_append]
  | error e => rw [andThen_error x f e h]; simp

theorem filesLoop_written (w : World) :
    ∀ (files : List String) (base : Mapping), written (filesLoop w base files).trace = []
  | [], _ => rfl
  | path :: rest, base => by
      simp only [filesLoop, bind_eq_andThen, written_andThen, Eff.call, written,
        List.nil_append]
      split
      · split
        · exact filesLoop_written w rest _
        · rfl
      · rfl

theorem setLoop_written (w : World) :
    ∀ (values : List String) (base : Mapping), written (setLoop w base values).trace = []
  | [], _ => rfl
  | s :: rest, base => by
      simp only [setLoop, bind_eq_andThen, written_andThen, Eff.call, written,
        List.nil_append]
      split
      · exact setLoop_written w rest _
      · rfl

theorem vals_written (w : World) (i : sprigCommand) : written (vals w i).trace = [] := by
  simp only [vals, bind_eq_andThen, written_andThen, filesLoop_written, List.nil_append]
  cases (filesLoop w .nil i.valueFiles).result with
  | error e => rfl
  | ok b1 =>
      simp only [setLoop_written, List.nil_append]
      cases (setLoop w b1 i.values).result with
      | error e => rfl
      | ok b2 =>
          cases i.envValues with
          | false => rfl
          | true =>
              simp only [if_true, bind_eq_andThen, written_andThen, Eff.call, written]
              cases envLoop .nil w.environ <;> rfl

theorem run_with_template (w : World) (i : sprigCommand) (ctx : Mapping) (text : String)
    (nodes : List Node)
    (hv : i.version = false)
    (hvals : (vals w i).result = .ok ctx)
    (hsrc : (i.stdInTemplate = true ∧ w.stdinStat = .ok true ∧ w.stdinData = .ok text) ∨
      (i.stdInTemplate = false ∧ i.target ≠ "" ∧ w.openFile i.target = .ok (.ok text)))
    (hparse : w.parse text = .ok nodes) :
    run w i = ⟨(vals w i).trace ++ (templateEvents i ++ (walk w.format .error ctx nodes).trace),
      (walk w.format .error ctx nodes).result⟩ := by
  simp only [run, hv, Bool.false_eq_true, if_false, bind_eq_andThen]
  rw [andThen_ok _ _ ctx hvals]
  rcases hsrc with ⟨hmode, hstat, hdata⟩ | ⟨hmode, htarget, hopen⟩
  · simp [hmode, shouldReadStdin, hstat, hdata, Eff.andThen, Eff.call, pure_eq_ret, Eff.ret,
      orError, hparse, templateEvents, Template.Execute, Template.Option]
  · simp [hmode, htarget, hopen, Eff.andThen, Eff.call, orError, hparse, templateEvents,
      Template.Execute, Template.Option]

theorem RunE_stdin_nil (run : sprigCommand → Eff Unit) (c : sprigCommand)
    (h : c.stdInTemplate = true) : RunE run c [] = run c := by
  simp [RunE, h]

theorem RunE_stdin_cons (run : sprigCommand → Eff Unit) (c : sprigCommand)
    (h : c.stdInTemplate = true) (a : String) (rest : List String) :
    RunE run c (a :: rest) =
      Eff.fail (.error "you must provide template from stdin when using stdin mode") := by
  simp [RunE, h]

theorem RunE_file_nil (run : sprigCommand → Eff Unit) (c : sprigCommand)
    (h : c.stdInTemplate = false) :
    RunE run c [] =
      Eff.fail (.error "there are no parameters, you must provide one template file") := by
  simp [RunE, h]

theorem RunE_file_one (run : sprigCommand → Eff Unit) (c : sprigCommand)
    (h : c.stdInTemplate = false) (a : String) :
    RunE run c [a] = run { c with target := a } := by
  simp [RunE, h]

theorem RunE_file_many (run : sprigCommand → Eff Unit) (c : sprigCommand)
    (h : c.stdInTemplate = false) (a b : String) (rest : List String) :
    RunE run c (a :: b :: rest) =
      Eff.fail (.error "too many parameters, you must provide only one template file") := by
  simp [RunE, h]

/-! ## Claims about `mergeMaps` -/

/-- C1. The per-key rule of `mergeMaps(dst, src)`, for a mapping `src` without repeated
keys and every key `k`: absent from `src`, the result holds what `dst` holds; a mapping
on both sides, the result holds the recursive merge; in every other case the result
holds `src[k]` itself.  Merging `{a: {x: 1}}` with `{a: 5}` gives `{a: 5}`. -/
theorem mergeMaps_per_key (dst src : Mapping) (hsrc : src.keys.Nodup) (k : String) :
    (lookup k src = none → lookup k (mergeMaps dst src) = lookup k dst) ∧
    (∀ sm dm, lookup k src = some (.map sm) → lookup k dst = some (.map dm) →
      lookup k (mergeMaps dst src) = some (.map (mergeMaps dm sm))) ∧
    (∀ v, lookup k src = some v →
      (v.asMap = none ∨ (lookup k dst).bind Value.asMap = none) →
      lookup k (mergeMaps dst src) = some v) ∧
    mergeMaps (.cons "a" (.map (.cons "x" (.num 1) .nil)) .nil) (.cons "a" (.num 5) .nil)
      = .cons "a" (.num 5) .nil := by
  refine ⟨mergeMaps_lookup_absent k src dst, ?_, ?_, rfl⟩
  · intro sm dm hs hd
    rw [mergeMaps_lookup_present k _ src dst hsrc hs, hd]
    rfl
  · intro v hs hcase
    rw [mergeMaps_lookup_present k v src dst hsrc hs]
    rcases hcase with h | h
    · rw [mergeValue_not_map _ _ h]
    · rw [mergeValue_dst_not_map _ _ h]

/-- Witness for C1: merging `{a: {x: 1}}` with `{a: {y: 2}, b: s}` holds at `a` the merge of the two nested mappings. -/
theorem mergeMaps_per_key_witness :
    (Mapping.cons "a" (.map (.cons "y" (.num 2) .nil)) (.cons "b" (.str "s") .nil)).keys.Nodup ∧
    lookup "a"
      (mergeMaps (.cons "a" (.map (.cons "x" (.num 1) .nil)) .nil)
        (.cons "a" (.map (.cons "y" (.num 2) .nil)) (.cons "b" (.str "s") .nil)))
      = some (.map (mergeMaps (.cons "x" (.num 1) .nil) (.cons "y" (.num 2) .nil))) :=
  ⟨by decide,
    (mergeMaps_per_key (.cons "a" (.map (.cons "x" (.num 1) .nil)) .nil)
      (.cons "a" (.map (.cons "y" (.num 2) .nil)) (.cons "b" (.str "s") .nil))
      (by decide) "a").2.1 _ _ rfl rfl⟩

/-- C2. The higher-precedence source wins at every depth: when a non-empty key path
through a well-formed `src` reaches a value that is not a mapping, the same path
through `mergeMaps(dst, src)` reaches that value, whatever `dst` holds. -/
theorem mergeMaps_src_wins_at_depth (dst src : Mapping) (hsrc : src.wf = true)
    (p : List String) (hp : p ≠ []) (v : Value) (hv : v.asMap = none)
    (h : (Value.map src).getPath p = some v) :
    (Value.map (mergeMaps dst src)).getPath p = some v :=
  getPath_mergeMaps v hv p dst src hp hsrc h

/-- Witness for C2: the sequence at `a.b` of the source replaces the mapping that the destination holds there. -/
theorem mergeMaps_src_wins_at_depth_witness :
    (Value.map (mergeMaps
        (.cons "a" (.map (.cons "b" (.map (.cons "c" (.num 1) .nil)) (.cons "z" (.num 0) .nil))) .nil)
        (.cons "a" (.map (.cons "b" (.seq [.num 7]) .nil)) .nil))).getPath ["a", "b"]
      = some (.seq [.num 7]) :=
  mergeMaps_src_wins_at_depth _ (.cons "a" (.map (.cons "b" (.seq [.num 7]) .nil)) .nil)
    rfl ["a", "b"] (by simp) (.seq [.num 7]) rfl rfl

/-- C3. Nested keys accumulate: where `dst` and a well-formed `src` both hold a mapping
at `k`, the result holds a mapping at `k` whose keys are those of `dst[k]` together with
those of `src[k]`; a key only in `dst[k]` keeps its `dst` value and a key only in
`src[k]` has its `src` value.  Merging `{a: {x: 1}}` with `{a: {y: 2}}` gives
`{a: {x: 1, y: 2}}`. -/
theorem mergeMaps_nested_accumulate (dst src : Mapping) (hsrc : src.wf = true)
    (k : String) (dm sm : Mapping)
    (hd : lookup k dst = some (.map dm)) (hs : lookup k src = some (.map sm)) :
    (∃ r, lookup k (mergeMaps dst src) = some (.map r) ∧
      (∀ j, j ∈ r.keys ↔ j ∈ dm.keys ∨ j ∈ sm.keys) ∧
      (∀ j, j ∈ dm.keys → j ∉ sm.keys → lookup j r = lookup j dm) ∧
      (∀ j, j ∉ dm.keys → j ∈ sm.keys → lookup j r = lookup j sm)) ∧
    mergeMaps (.cons "a" (.map (.cons "x" (.num 1) .nil)) .nil)
        (.cons "a" (.map (.cons "y" (.num 2) .nil)) .nil)
      = .cons "a" (.map (.cons "x" (.num 1) (.cons "y" (.num 2) .nil))) .nil := by
  refine ⟨⟨mergeMaps dm sm, ?_, fun j => mem_keys_mergeMaps j sm dm, ?_, ?_⟩, rfl⟩
  · rw [mergeMaps_lookup_present k _ src dst (wf_keys_nodup src hsrc) hs, hd]
    rfl
  · intro j _ hjs
    exact mergeMaps_lookup_absent j sm dm ((not_mem_keys_iff j sm).1 hjs)
  · intro j hjd hjs
    have hsm : sm.wf = true := by
      have := wf_lookup k (.map sm) src hsrc hs
      simpa [Value.wf] using this
    have hnone : lookup j dm = none := (not_mem_keys_iff j dm).1 hjd
    obtain ⟨w, hw⟩ := Option.isSome_iff_exists.1 ((mem_keys_iff j sm).1 hjs)
    rw [mergeMaps_lookup_present j w sm dm (wf_keys_nodup sm hsm) hw, hw, hnone,
      mergeValue_dst_not_map none w rfl]

/-- Witness for C3: the mappings `{x: 1, w: 3}` and `{y: 2, w: 4}` at key `a`. -/
theorem mergeMaps_nested_accumulate_witness :
    ∃ r, lookup "a" (mergeMaps
        (.cons "a" (.map (.cons "x" (.num 1) (.cons "w" (.num 3) .nil))) .nil)
        (.cons "a" (.map (.cons "y" (.num 2) (.cons "w" (.num 4) .nil))) .nil))
        = some (.map r) ∧
      (∀ j, j ∈ r.keys ↔
        j ∈ (Mapping.cons "x" (.num 1) (.cons "w" (.num 3) .nil)).keys ∨
        j ∈ (Mapping.cons "y" (.num 2) (.cons "w" (.num 4) .nil)).keys) ∧
      (∀ j, j ∈ (Mapping.cons "x" (.num 1) (.cons "w" (.num 3) .nil)).keys →
        j ∉ (Mapping.cons "y" (.num 2) (.cons "w" (.num 4) .nil)).keys →
        lookup j r = lookup j (Mapping.cons "x" (.num 1) (.cons "w" (.num 3) .nil))) ∧
      (∀ j, j ∉ (Mapping.cons "x" (.num 1) (.cons "w" (.num 3) .nil)).keys →
        j ∈ (Mapping.cons "y" (.num 2) (.cons "w" (.num 4) .nil)).keys →
        lookup j r = lookup j (Mapping.cons "y" (.num 2) (.cons "w" (.num 4) .nil))) :=
  (mergeMaps_nested_accumulate
    (.cons "a" (.map (.cons "x" (.num 1) (.cons "w" (.num 3) .nil))) .nil)
    (.cons "a" (.map (.cons "y" (.num 2) (.cons "w" (.num 4) .nil))) .nil)
    rfl "a" _ _ rfl rfl).1

/-- C4. In a left fold of `mergeMaps` from the empty mapping over a list of sources
without repeated keys, a top-level key present in exactly one source holds that source's
value, unchanged, in the result. -/
theorem foldl_mergeMaps_unique_key (pre post : List Mapping) (s : Mapping)
    (k : String) (v : Value)
    (hnd : ∀ m ∈ pre ++ s :: post, m.keys.Nodup)
    (hpre : ∀ m ∈ pre, lookup k m = none)
    (hs : lookup k s = some v)
    (hpost : ∀ m ∈ post, lookup k m = none) :
    lookup k ((pre ++ s :: post).foldl mergeMaps .nil) = some v := by
  rw [List.foldl_append, List.foldl_cons, foldl_mergeMaps_absent k post _ hpost,
    mergeMaps_lookup_present k v s _ (hnd s (by simp)) hs,
    foldl_mergeMaps_absent k pre _ hpre]
  simp [lookup, mergeValue_dst_not_map]

/-- Witness for C4: of three sources only the second has the key `b`, a nested mapping. -/
theorem foldl_mergeMaps_unique_key_witness :
    lookup "b" (([Mapping.cons "a" (.num 1) .nil] ++
        Mapping.cons "b" (.map (.cons "x" (.num 1) .nil)) (.cons "a" (.num 2) .nil) ::
        [Mapping.cons "a" (.map .nil) .nil]).foldl mergeMaps .nil)
      = some (.map (.cons "x" (.num 1) .nil)) :=
  foldl_mergeMaps_unique_key [Mapping.cons "a" (.num 1) .nil]
    [Mapping.cons "a" (.map .nil) .nil]
    (Mapping.cons "b" (.map (.cons "x" (.num 1) .nil)) (.cons "a" (.num 2) .nil))
    "b" (.map (.cons "x" (.num 1) .nil))
    (by decide) (by simp [lookup]) rfl (by simp [lookup])

/-! ## Claims about `vals` -/

/-- C5 (as amended). The stage order of `vals`: when every values file loads, every
`--set` spec parses, and (in env mode) every environment entry contains `=`, `vals`
returns the left fold of `mergeMaps` over the file mappings from the empty mapping,
then the overrides applied in order, then, only in env mode, `mergeMaps` of that with
the environment mapping; with env mode off, `vals` does not depend on the environment. -/
theorem vals_stage_order (w : World) (i : sprigCommand) (ms : List Mapping)
    (ov : Mapping → String → Mapping)
    (hload : List.Forall₂ (fun path m => ∃ bytes, w.readFile path = .ok bytes ∧
      w.unmarshal bytes = .ok m) i.valueFiles ms)
    (hov : ∀ pre s post, i.values = pre ++ s :: post →
      w.parseInto s (pre.foldl ov (ms.foldl mergeMaps .nil)) =
        .ok (ov (pre.foldl ov (ms.foldl mergeMaps .nil)) s))
    (henv : i.envValues = true → ∀ e ∈ w.environ, '=' ∈ e.data) :
    (vals w i).result =
        .ok (if i.envValues then
              mergeMaps (i.values.foldl ov (ms.foldl mergeMaps .nil)) (environMap w.environ)
            else i.values.foldl ov (ms.foldl mergeMaps .nil)) ∧
      (i.envValues = false → ∀ env, vals { w with environ := env } i = vals w i) := by
  refine ⟨?_, fun hoff env => vals_environ_irrelevant w i env hoff⟩
  rw [vals_result w i _ _ (filesLoop_result w i.valueFiles ms .nil hload)
    (setLoop_result w ov i.values _ hov)]
  cases hon : i.envValues with
  | false => simp
  | true =>
      simp only [if_true]
      rw [envLoop_all_have_sep w.environ .nil (henv hon)]
      rfl

/-- Witness for C5: the sample world, with two files, one override and env mode on. -/
theorem vals_stage_order_witness :
    (vals sampleWorld sampleCommand).result =
      .ok (mergeMaps
        (assign "k" (.str "v") (mergeMaps (mergeMaps .nil sampleA) sampleB))
        (environMap ["NAME=envval", "X=a=b"])) :=
  (vals_stage_order sampleWorld sampleCommand [sampleA, sampleB]
    (fun base _ => assign "k" (.str "v") base)
    (List.Forall₂.cons ⟨"A", rfl, rfl⟩ (List.Forall₂.cons ⟨"B", rfl, rfl⟩ List.Forall₂.nil))
    (by
      intro pre s post h
      cases pre with
      | nil =>
          have hs : s = "k=v" := by
            have := (List.cons.inj h).1
            exact this.symm
          subst hs
          rfl
      | cons x pre1 =>
          have := (List.cons.inj h).2
          simp [sampleCommand] at this)
    (fun _ => by decide)).1

/-- C5, counterexample. In env mode, with no values file and no override, an environment
whose only entry `NOEQ` has no `=` makes `vals` end in a panic: it returns no mapping. -/
theorem vals_no_result_on_entry_without_sep :
    (vals (sampleWorldWithEnv ["NOEQ"]) envOnlyCommand).result =
        .error (.panic "runtime error: index out of range [1] with length 1") ∧
      ¬ ∃ m, (vals (sampleWorldWithEnv ["NOEQ"]) envOnlyCommand).result = .ok m := by
  have h : (vals (sampleWorldWithEnv ["NOEQ"]) envOnlyCommand).result =
      .error (.panic "runtime error: index out of range [1] with length 1") := rfl
  refine ⟨h, ?_⟩
  rintro ⟨m, hm⟩
  rw [h] at hm
  cases hm

/-- C6. With env mode on and every environment entry of the form `NAME=VALUE`, the
context returned by `vals` maps the name of an entry (the text before its first `=`) to
the string after that first `=`, the last entry of a name counting, whatever the files
and overrides put at that key. -/
theorem vals_env_overrides (w : World) (i : sprigCommand) (b1 b2 : Mapping)
    (hon : i.envValues = true)
    (h1 : (filesLoop w .nil i.valueFiles).result = .ok b1)
    (h2 : (setLoop w b1 i.values).result = .ok b2)
    (hform : ∀ e ∈ w.environ, '=' ∈ e.data)
    (pre post : List String) (e : String)
    (henv : w.environ = pre ++ e :: post)
    (hlast : ∀ e1 ∈ post, envName e1 ≠ envName e) :
    (e = envName e ++ "=" ++ envValue e ∧ '=' ∉ (envName e).data) ∧
      ∃ r, (vals w i).result = .ok r ∧ lookup (envName e) r = some (.str (envValue e)) := by
  refine ⟨entry_of_has_sep e (hform e (by simp [henv])), mergeMaps b2 (environMap w.environ), ?_, ?_⟩
  · rw [vals_result w i b1 b2 h1 h2, hon]
    simp only [if_true]
    rw [envLoop_all_have_sep w.environ .nil hform]
    rfl
  · rw [mergeMaps_lookup_present (envName e) (.str (envValue e)) _ b2
      (environMap_nodup w.environ) (by rw [henv]; exact environMap_lookup_last pre post e hlast)]
    rfl

/-- Witness for C6: the entry `NAME=envval` replaces the `fileval` that `a.yaml` put at `NAME`. -/
theorem vals_env_overrides_witness :
    ∃ r, (vals sampleWorld sampleCommand).result = .ok r ∧
      lookup "NAME" r = some (.str "envval") :=
  (vals_env_overrides sampleWorld sampleCommand
    (mergeMaps (mergeMaps .nil sampleA) sampleB)
    (assign "k" (.str "v") (mergeMaps (mergeMaps .nil sampleA) sampleB))
    rfl rfl rfl (by decide) [] ["X=a=b"] "NAME=envval" rfl (by decide)).2

/-- C10. The environment loop indexes the split entry at 1 without a length check: the
index is in range exactly when the entry contains `=`; when every entry contains `=`
the loop completes, storing one string pair per entry; an entry without `=` makes the
loop end in an index-out-of-range panic, not in a pair or an error value. -/
theorem envLoop_index_in_range_iff :
    (∀ e : String, 1 < (SplitN e '=' 2).length ↔ '=' ∈ e.data) ∧
    (∀ (envMap : Mapping) (env : List String), (∀ e ∈ env, '=' ∈ e.data) →
      ∃ pairs : List (String × String),
        List.Forall₂ (fun e p => e = p.1 ++ "=" ++ p.2 ∧ '=' ∉ p.1.data) env pairs ∧
        envLoop envMap env = .ok (pairs.foldl (fun m p => assign p.1 (.str p.2) m) envMap)) ∧
    (∀ (envMap : Mapping) (env : List String), (∃ e ∈ env, '=' ∉ e.data) →
      envLoop envMap env =
        .error (.panic "runtime error: index out of range [1] with length 1")) := by
  refine ⟨?_, ?_, fun envMap env h => envLoop_some_no_sep env envMap h⟩
  · intro e
    by_cases h : '=' ∈ e.data
    · simp [SplitN_has_sep e h, h]
    · simp [SplitN_no_sep e h, h]
  · intro envMap env h
    refine ⟨env.map (fun e => (envName e, envValue e)), ?_, ?_⟩
    · rw [List.forall₂_map_right_iff, List.forall₂_same]
      exact fun e he => entry_of_has_sep e (h e he)
    · rw [envLoop_all_have_sep env envMap h, List.foldl_map]

/-- Witness for C10: the entry `B` stops the loop with a panic; the entries `A=1`, `B=x=y` give two pairs. -/
theorem envLoop_index_in_range_iff_witness :
    envLoop .nil ["A=1", "B"] =
        .error (.panic "runtime error: index out of range [1] with length 1") ∧
      ∃ pairs : List (String × String),
        List.Forall₂ (fun e p => e = p.1 ++ "=" ++ p.2 ∧ '=' ∉ p.1.data) ["A=1", "B=x=y"] pairs ∧
        envLoop .nil ["A=1", "B=x=y"] =
          .ok (pairs.foldl (fun m p => assign p.1 (.str p.2) m) .nil) :=
  ⟨envLoop_index_in_range_iff.2.2 .nil ["A=1", "B"] ⟨"B", by simp, by decide⟩,
    envLoop_index_in_range_iff.2.1 .nil ["A=1", "B=x=y"] (by decide)⟩

/-! ## Claims about the command -/

/-- C7. The argument check proceeds to `run` exactly when one input mode is active:
stdin mode with no positional argument, or file mode with exactly one, which becomes the
target; in every other case it returns a usage error that does not depend on `run` and
performs no event. -/
theorem RunE_accepts_iff (sprigCmd : sprigCommand) (args : List String) :
    ((sprigCmd.stdInTemplate = true ∧ args.length = 0) ∨
        (sprigCmd.stdInTemplate = false ∧ args.length = 1) →
      ∀ run, RunE run sprigCmd args =
        run { sprigCmd with
          target := if sprigCmd.stdInTemplate then sprigCmd.target else args.headD "" }) ∧
    (¬ ((sprigCmd.stdInTemplate = true ∧ args.length = 0) ∨
        (sprigCmd.stdInTemplate = false ∧ args.length = 1)) →
      ∃ msg, ∀ run, RunE run sprigCmd args = Eff.fail (.error msg)) ∧
    ((∃ c, ∀ run, RunE run sprigCmd args = run c) ↔
      ((sprigCmd.stdInTemplate = true ∧ args.length = 0) ∨
        (sprigCmd.stdInTemplate = false ∧ args.length = 1))) := by
  have hne : ∀ (msg : String) (c : sprigCommand),
      ¬ ∀ run : sprigCommand → Eff Unit, (Eff.fail (.error msg) : Eff Unit) = run c := by
    intro msg c h
    have h1 := congrArg Eff.result (h (fun _ => Eff.ret ()))
    simp [Eff.fail, Eff.ret] at h1
  obtain ⟨vf, mode, ev, dr, ver, vs, tg⟩ := sprigCmd
  cases mode with
  | true =>
      cases args with
      | nil =>
          exact ⟨fun _ run => RunE_stdin_nil run _ rfl,
            fun h => absurd (Or.inl ⟨rfl, rfl⟩) h,
            fun _ => Or.inl ⟨rfl, rfl⟩, fun _ => ⟨_, fun run => RunE_stdin_nil run _ rfl⟩⟩
      | cons a rest =>
          refine ⟨fun h => ?_, fun _ => ⟨_, fun run => RunE_stdin_cons run _ rfl a rest⟩,
            ?_, fun h => ?_⟩
          · simp at h
          · rintro ⟨c, hc⟩
            exact absurd (fun run => (RunE_stdin_cons run _ rfl a rest).symm.trans (hc run))
              (hne _ c)
          · simp at h
  | false =>
      cases args with
      | nil =>
          refine ⟨fun h => ?_, fun _ => ⟨_, fun run => RunE_file_nil run _ rfl⟩,
            ?_, fun h => ?_⟩
          · simp at h
          · rintro ⟨c, hc⟩
            exact absurd (fun run => (RunE_file_nil run _ rfl).symm.trans (hc run)) (hne _ c)
          · simp at h
      | cons a rest =>
          cases rest with
          | nil =>
              exact ⟨fun _ run => RunE_file_one run _ rfl a,
                fun h => absurd (Or.inr ⟨rfl, rfl⟩) h,
                fun _ => Or.inr ⟨rfl, rfl⟩, fun _ => ⟨_, fun run => RunE_file_one run _ rfl a⟩⟩
          | cons b rest2 =>
              refine ⟨fun h => ?_, fun _ => ⟨_, fun run => RunE_file_many run _ rfl a b rest2⟩,
                ?_, fun h => ?_⟩
              · simp at h
              · rintro ⟨c, hc⟩
                exact absurd (fun run =>
                  (RunE_file_many run _ rfl a b rest2).symm.trans (hc run)) (hne _ c)
              · simp at h

/-- Witness for C7: one argument in file mode reaches `run`; two arguments are a usage error. -/
theorem RunE_accepts_iff_witness :
    (∀ run, RunE run sampleCommand ["t.tmpl"] = run { sampleCommand with target := "t.tmpl" }) ∧
      ∃ msg, ∀ run, RunE run sampleCommand ["a", "b"] = Eff.fail (.error msg) :=
  ⟨(RunE_accepts_iff sampleCommand ["t.tmpl"]).1 (Or.inr ⟨rfl, rfl⟩),
    (RunE_accepts_iff sampleCommand ["a", "b"]).2.1 (by decide)⟩

/-- C8 (the code departs from the claim). With the version flag set, `run` prints
`sprig: ` followed by `Version`, returns success and performs no other event; but the
command reaches `run` only through the argument check, so `sprig --version` with no
template argument ends in a usage error and prints nothing. -/
theorem version_flag_behind_argument_check :
    (∀ w : World, NewSprigCmd w versionOnlyCommand [] =
      Eff.fail (.error "there are no parameters, you must provide one template file")) ∧
    (∀ w : World, written (NewSprigCmd w versionOnlyCommand []).trace = []) ∧
    (∀ (w : World) (i : sprigCommand),
      run w { i with version := true } =
        Eff.call [.println ("sprig: " ++ Version)] (.ok ())) :=
  ⟨fun _ => rfl, fun _ => rfl, fun _ _ => rfl⟩

/-- C9. Strict keys: when `run` executes the template `{{.missing}}` against the context
that `vals` returned, it fails with a missing-key error and writes nothing if the context
has no key `missing`, and it succeeds, writing that key's value, if the context has it. -/
theorem run_strict_keys (w : World) (i : sprigCommand) (ctx : Mapping)
    (hv : i.version = false)
    (hvals : (vals w i).result = .ok ctx)
    (hsrc : (i.stdInTemplate = true ∧ w.stdinStat = .ok true ∧
        w.stdinData = .ok "\x7b\x7b.missing\x7d\x7d") ∨
      (i.stdInTemplate = false ∧ i.target ≠ "" ∧
        w.openFile i.target = .ok (.ok "\x7b\x7b.missing\x7d\x7d")))
    (hparse : w.parse "\x7b\x7b.missing\x7d\x7d" = .ok [.field "missing"]) :
    (lookup "missing" ctx = none →
      (run w i).result = .error (.missingKey "missing") ∧ written (run w i).trace = []) ∧
    (∀ v, lookup "missing" ctx = some v →
      (run w i).result = .ok () ∧ written (run w i).trace = [w.format v]) := by
  have hrun := run_with_template w i ctx _ _ hv hvals hsrc hparse
  have htpl : written (templateEvents i) = [] := by
    unfold templateEvents
    split <;> rfl
  constructor
  · intro hmiss
    rw [hrun]
    simp [walk, hmiss, absentKey, bind_eq_andThen, Eff.andThen, Eff.fail, written_append,
      vals_written, htpl, written]
  · intro v hv1
    rw [hrun]
    simp [walk, hv1, Eff.call, bind_eq_andThen, Eff.andThen, pure_eq_ret, Eff.ret,
      written_append, vals_written, htpl, written]

/-- Witness for C9: with the sample files the key is present and `here` is written; without them the run fails. -/
theorem run_strict_keys_witness :
    ((run sampleWorld sampleCommand).result = .ok () ∧
        written (run sampleWorld sampleCommand).trace = ["here"]) ∧
      ((run sampleWorld envOnlyCommand).result = .error (.missingKey "missing") ∧
        written (run sampleWorld envOnlyCommand).trace = []) :=
  ⟨(run_strict_keys sampleWorld sampleCommand _ rfl rfl
      (Or.inr ⟨rfl, by decide, rfl⟩) rfl).2 (.str "here") rfl,
    (run_strict_keys sampleWorld envOnlyCommand _ rfl rfl
      (Or.inr ⟨rfl, by decide, rfl⟩) rfl).1 rfl⟩

end Sprig
